import Mathlib

/-!
Verification of the diff parsing and safe-application subsystem of
`tools/agent/run.ts` (function `applyUnifiedDiff` and the path-allowlist
guardrail in `main`).

The embedding works over strings represented through their character lists.
A text is decomposed into lines exactly where the source calls
`String.prototype.split("\n")`, and reassembled where it calls
`Array.prototype.join("\n")`.  JavaScript's `String.prototype.split` on a
multiline-anchored regular expression that matches complete lines is modelled
at the line level: the matched line is removed, the newline before it stays
with the preceding piece and the newline after it stays with the following
piece (`markSeps` / `leadNl` below reproduce this).

The file system is a partial map from paths to file contents.  A
`readFileSync` on a missing path throws in JavaScript; this is modelled by an
`ApplyError` value that, as in the source (which has no try/catch around the
loop), aborts the processing of all remaining file sections.
-/

namespace AgentRun

/-- JS `s.split("\n")`: decompose a string into its newline-separated lines. -/
def strLines (s : String) : List String :=
  (s.data.splitOn '\n').map String.mk

/-- JS `lines.join("\n")`: reassemble lines with newline separators. -/
def joinNl (ls : List String) : String :=
  String.mk (List.intercalate ['\n'] (ls.map String.data))

/-- JS `s.startsWith(p)`. -/
def strStartsWith (s p : String) : Bool :=
  p.data.isPrefixOf s.data

/-- JS `s.slice(n)` for a nonnegative `n`: drop the first `n` characters. -/
def strDrop (s : String) (n : Nat) : String :=
  String.mk (s.data.drop n)

/-- Character length of a string. -/
def strLen (s : String) : Nat :=
  s.data.length

/-- Whether `pat` occurs as a prefix of some suffix of `cs`. -/
def charsContain (pat : List Char) : List Char → Bool
  | [] => pat.isPrefixOf []
  | c :: rest => pat.isPrefixOf (c :: rest) || charsContain pat rest

/-- JS `/pat/.test(s)` for a literal pattern: substring containment. -/
def strContains (s pat : String) : Bool :=
  charsContain pat.data s.data

/-- The file system: a partial map from paths to file contents. -/
def FS : Type := String → Option String

/-- `writeFileSafe` of the source: store `content` at `filePath`
(directory creation has no observable effect in this model). -/
def writeFileSafe (fs : FS) (filePath content : String) : FS :=
  fun q => if q = filePath then some content else fs q

/-- JS `fs.existsSync(p)`. -/
def existsSync (fs : FS) (p : String) : Bool :=
  (fs p).isSome

/-- A line matching `/^diff --git .*$/`: the per-file section boundary. -/
def isDiffGitLine (l : String) : Bool :=
  strStartsWith l "diff --git "

/-- A line matching `/^@@ .*@@.*$/`: a hunk header. -/
def isHunkHeader (l : String) : Bool :=
  strStartsWith l "@@ " && strContains (strDrop l 3) "@@"

/-- Split a line list at the lines satisfying `p`, removing those lines and
keeping (possibly empty) groups of the lines between them. -/
def splitAtTrue (p : String → Bool) : List String → List (List String)
  | [] => [[]]
  | l :: rest =>
    match splitAtTrue p rest with
    | [] => [[]]
    | g :: gs => if p l then [] :: g :: gs else (l :: g) :: gs

/-- Append an empty line to every group except the last: the newline that
preceded a removed marker line belongs to the piece before it. -/
def markSeps : List (List String) → List (List String)
  | [] => []
  | [g] => [g]
  | g :: gs => (g ++ [""]) :: markSeps gs

/-- Prepend an empty line to every group except the first: the newline that
followed a removed marker line belongs to the piece after it. -/
def leadNl : List (List String) → List (List String)
  | [] => []
  | g :: gs => g :: gs.map (fun h => "" :: h)

/-- JS `s.split(re)` where `re` matches exactly the full lines satisfying
`p` (multiline anchors), with each resulting piece given by its lines. -/
def jsSplitOnLines (p : String → Bool) (ls : List String) : List (List String) :=
  leadNl (markSeps (splitAtTrue p ls))

/-- First match of `new RegExp("\n" + pre + "([^\n]+)\n")` over a block given
by its lines: a non-final line carrying prefix `pre` and a nonempty rest.
The caller passes the lines after the block's first line, because the block's
first line is not preceded by a newline. -/
def findHdrPath (pre : String) : List String → Option String
  | [] => none
  | l :: rest =>
    if !rest.isEmpty && strStartsWith l pre && strLen pre < strLen l then
      some (strDrop l (strLen pre))
    else findHdrPath pre rest

/-- `block.match(/\n\+\+\+ b\/([^\n]+)\n/)?.[1]` on a block given by lines. -/
def newPathOf (g : List String) : Option String :=
  findHdrPath "+++ b/" (g.drop 1)

/-- `block.match(/\n--- a\/([^\n]+)\n/)?.[1]` on a block given by lines. -/
def oldPathOf (g : List String) : Option String :=
  findHdrPath "--- a/" (g.drop 1)

/-- `/new file mode/.test(block)`. -/
def hasNewFileMode (g : List String) : Bool :=
  strContains (joinNl g) "new file mode"

/-- Line classification of the reconstruction loops: a `+` line keeps its
text after the marker, `-` and `\` lines are dropped, anything else is kept
verbatim. -/
def keepLine (ln : String) : Option String :=
  if strStartsWith ln "+" then some (strDrop ln 1)
  else if strStartsWith ln "-" || strStartsWith ln "\\" then none
  else some ln

/-- The lines a single hunk body contributes to the reconstruction. -/
def hunkLines (h : List String) : List String :=
  h.filterMap keepLine

/-- `block.split(/^@@ .*@@.*$/m).slice(1)`: the hunk bodies of a block, each
given by its lines (the lines of a block contain no newline, so splitting
the block string is splitting its line list). -/
def hunkBodiesOf (g : List String) : List (List String) :=
  (jsSplitOnLines isHunkHeader g).drop 1

/-- `.replace(/^\n/, "")`: strip a single leading newline if present. -/
def stripLeadNl (s : String) : String :=
  if strStartsWith s "\n" then strDrop s 1 else s

/-- Content written in the new-file branch: keep lines of all hunks in hunk
order then line order, joined by newlines, with one leading newline
stripped. -/
def newFileContent (g : List String) : String :=
  stripLeadNl (joinNl ((hunkBodiesOf g).flatMap hunkLines))

/-- Error raised when `fs.readFileSync` is called on a missing path. -/
inductive ApplyError where
  | missingBaseFile (path : String)
deriving DecidableEq

/-- The body of the `for (const block of files)` loop of `applyUnifiedDiff`,
for one block.  Returns the updated file system and the error thrown by
`readFileSync`, if any. -/
def applyBlock (fs : FS) (g : List String) : FS × Option ApplyError :=
  match newPathOf g with
  | none => (fs, none)
  | some newPath =>
    let oldPath := (oldPathOf g).getD newPath
    if hasNewFileMode g || !existsSync fs newPath then
      (writeFileSafe fs newPath (newFileContent g), none)
    else
      let pathToRead := oldPath
      match fs pathToRead with
      | none => (fs, some (.missingBaseFile pathToRead))
      | some content =>
        let original := strLines content
        let hunks := hunkBodiesOf g
        let after :=
          if hunks.isEmpty then original
          else
            let reconstructed := hunks.flatMap hunkLines
            if reconstructed.isEmpty then original else reconstructed
        (writeFileSafe fs newPath (joinNl after), none)

/-- The loop of `applyUnifiedDiff`: blocks are processed in order; a thrown
error aborts the remaining iterations (there is no try/catch in the source). -/
def applyBlocksList (fs : FS) : List (List String) → FS × Option ApplyError
  | [] => (fs, none)
  | g :: gs =>
    match applyBlock fs g with
    | (fs1, none) => applyBlocksList fs1 gs
    | (fs1, some e) => (fs1, some e)

/-- `diff.split(/^diff --git .*$/m).filter(Boolean)`: the file sections of a
diff, each given by its lines; pieces that are the empty string are dropped. -/
def diffBlocks (diff : String) : List (List String) :=
  (jsSplitOnLines isDiffGitLine (strLines diff)).filter (fun g => joinNl g != "")

/-- `applyUnifiedDiff` of the source over the modelled file system. -/
def applyUnifiedDiff (diff : String) (fs : FS) : FS × Option ApplyError :=
  applyBlocksList fs (diffBlocks diff)

/-- `norm` of `main`: `s.replace(/^[.][/\\]/, "")` strips exactly one leading
`./` or `.\` prefix. -/
def norm (s : String) : String :=
  if strStartsWith s "./" || strStartsWith s ".\\" then strDrop s 2 else s

/-- A line that begins an addition header with a nonempty captured path. -/
def isAddedHeaderLine (l : String) : Bool :=
  strStartsWith l "+++ b/" && 6 < strLen l

/-- `[...diffText.matchAll(/\n\+\+\+ b\/([^\n]+)\n/g)].map(m => m[1])`:
matches are found left to right and consume their trailing newline, so the
line immediately after a match has no preceding newline available (`avail`
is false for it). -/
def matchAllAddedPaths : Bool → List String → List String
  | _, [] => []
  | avail, l :: rest =>
    if avail && isAddedHeaderLine l && !rest.isEmpty then
      strDrop l 6 :: matchAllAddedPaths false rest
    else matchAllAddedPaths true rest

/-- The `addedPaths` of `main`: all captured `+++ b/` paths of the diff text
(the first line of the text has no preceding newline), keeping only nonempty
strings. -/
def addedPaths (diff : String) : List String :=
  (matchAllAddedPaths false (strLines diff)).filter (fun p => p != "")

/-- Whitelist construction of `main`: each configured prefix has a leading
`./` stripped (`p.replace(/^\.\//, "")`). -/
def mkWhitelist (ps : List String) : List String :=
  ps.map (fun p => if strStartsWith p "./" then strDrop p 2 else p)

/-- The `badPath` test of `main`: some touched path is, after normalization,
not an extension of any normalized whitelist prefix. -/
def badPath (whitelist : List String) (paths : List String) : Bool :=
  paths.any (fun p => !(whitelist.any (fun w => strStartsWith (norm p) (norm w))))

/-- `/^diff --git /m.test(diffText)`. -/
def hasDiffGitMarker (diff : String) : Bool :=
  (strLines diff).any isDiffGitLine

/-- The guarded application step of `main`: skip when the text has no
`diff --git` marker, reject when `badPath` holds, otherwise record the diff
to `.agent.diff` and apply it. -/
def applyWithGuardrail (whitelist : List String) (diff : String) (fs : FS) :
    FS × Option ApplyError :=
  if !hasDiffGitMarker diff then (fs, none)
  else if badPath whitelist (addedPaths diff) then (fs, none)
  else applyUnifiedDiff diff (writeFileSafe fs ".agent.diff" diff)

/-- Build a concrete file system from an association list of path/content pairs. -/
def fsOf (l : List (String × String)) : FS :=
  fun p => (l.find? (fun q => q.1 = p)).map (fun q => q.2)

/-- An edit diff whose single hunk holds one context, one removed and one
added line, in that order. -/
def c1diff : String :=
  "diff --git a/f.txt b/f.txt\n--- a/f.txt\n+++ b/f.txt\n@@ -1,2 +1,2 @@\n ctx\n-rem\n+add"

/-- A file system where the edited file `f.txt` exists. -/
def c1fs : FS := fsOf [("f.txt", "old1\nold2")]

/-- A new-file diff section whose hunk body is solely `+line1` / `+line2`. -/
def c2diff : String :=
  "diff --git a/pkg/x.txt b/pkg/x.txt\nnew file mode 100644\n--- /dev/null\n+++ b/pkg/x.txt\n@@ -0,0 +1,2 @@\n+line1\n+line2"

/-- The block (given by its lines) of a new-file section creating `pkg/x.txt`. -/
def c2block : List String :=
  ["", "new file mode 100644", "--- /dev/null", "+++ b/pkg/x.txt", "@@ -0,0 +1,2 @@", "+line1", "+line2"]

/-- A diff with an edit whose `--- a/` path is missing on disk, followed by
an independent new-file section. -/
def c3diff : String :=
  "diff --git a/a.txt b/a.txt\n--- a/missing.txt\n+++ b/a.txt\n@@ -1 +1 @@\n+hi\ndiff --git a/b.txt b/b.txt\nnew file mode\n+++ b/pkg/b.txt\n@@ -0,0 +1 @@\n+yo"

/-- The same two sections in the opposite order: the new file first, then
the failing edit. -/
def c3diffRev : String :=
  "diff --git a/b.txt b/b.txt\nnew file mode\n+++ b/pkg/b.txt\n@@ -0,0 +1 @@\n+yo\ndiff --git a/a.txt b/a.txt\n--- a/missing.txt\n+++ b/a.txt\n@@ -1 +1 @@\n+hi"

/-- The independent new-file section of `c3diff` on its own. -/
def c3solo : String :=
  "diff --git a/b.txt b/b.txt\nnew file mode\n+++ b/pkg/b.txt\n@@ -0,0 +1 @@\n+yo"

/-- A file system where `a.txt` exists but `missing.txt` does not. -/
def c3fs : FS := fsOf [("a.txt", "x")]

/-- A diff touching `src/a.ts` (allowed) and `secrets/b.ts` (not allowed). -/
def c4diff : String :=
  "diff --git a/src/a.ts b/src/a.ts\n--- a/src/a.ts\n+++ b/src/a.ts\n@@ -1 +1 @@\n+x\ndiff --git a/secrets/b.ts b/secrets/b.ts\n--- a/secrets/b.ts\n+++ b/secrets/b.ts\n@@ -1 +1 @@\n+y"

/-- A file system where `src/a.ts` exists with known content. -/
def c4fs : FS := fsOf [("src/a.ts", "orig")]

/-- A text with no `diff --git` line that still carries an addition header
and a hunk. -/
def c6diff : String :=
  "x\n+++ b/pkg/a.txt\n@@ -0,0 +1 @@\n+hi"

/-- An edit section with headers but no hunk at all. -/
def c7editDiff : String :=
  "diff --git a/e.txt b/e.txt\n--- a/e.txt\n+++ b/e.txt\nindex 123..456\n"

/-- A new-file section with headers but no hunk at all. -/
def c7newDiff : String :=
  "diff --git a/n.txt b/n.txt\nnew file mode\n+++ b/n.txt\nindex 000..111\n"

/-- A file system where the zero-hunk edit's target exists. -/
def c7fs : FS := fsOf [("e.txt", "keep\nme")]

/-- Two new-file sections for the same path `p.txt` with different bodies. -/
def c8diff : String :=
  "diff --git a/p.txt b/p.txt\nnew file mode\n+++ b/p.txt\n@@ -0,0 +1 @@\n+first\ndiff --git a/p.txt b/p.txt\nnew file mode\n+++ b/p.txt\n@@ -0,0 +1 @@\n+second"

/-- Only the first of the two `c8diff` sections. -/
def c8firstOnly : String :=
  "diff --git a/p.txt b/p.txt\nnew file mode\n+++ b/p.txt\n@@ -0,0 +1 @@\n+first"

/-- A block whose `--- a/` path does not exist while its `+++ b/` path does. -/
def c9block : List String :=
  ["", "--- a/missing.txt", "+++ b/a.txt", "@@ -1 +1 @@", "+hi"]

/-- The block of the `c1diff` edit section, given by its lines. -/
def ctxRemAddBlock : List String :=
  ["", "--- a/f.txt", "+++ b/f.txt", "@@ -1,2 +1,2 @@", " ctx", "-rem", "+add"]

/-- The block of the zero-hunk edit section of `c7editDiff`. -/
def c7editBlock : List String :=
  ["", "--- a/e.txt", "+++ b/e.txt", "index 123..456", ""]

/-- The block of the zero-hunk new-file section of `c7newDiff`. -/
def c7newBlock : List String :=
  ["", "new file mode", "+++ b/n.txt", "index 000..111", ""]

/-- A zero-hunk edit section whose removal header names a different file
than its addition header. -/
def c7crossDiff : String :=
  "diff --git a/x.txt b/y.txt\n--- a/x.txt\n+++ b/y.txt\nindex 123..456\n"

/-- The block of the zero-hunk cross-path edit section of `c7crossDiff`. -/
def c7crossBlock : List String :=
  ["", "--- a/x.txt", "+++ b/y.txt", "index 123..456", ""]

/-- A file system where both `x.txt` and `y.txt` exist, with different
contents. -/
def c7crossFs : FS := fsOf [("x.txt", "foo"), ("y.txt", "bar")]

/-- The first `c8diff` section's block, given by its lines. -/
def c8block1 : List String :=
  ["", "new file mode", "+++ b/p.txt", "@@ -0,0 +1 @@", "+first", ""]

/-- The second `c8diff` section's block, given by its lines. -/
def c8block2 : List String :=
  ["", "new file mode", "+++ b/p.txt", "@@ -0,0 +1 @@", "+second"]

/-- Reassembling the lines of a string restores the string. -/
lemma joinNl_strLines (s : String) : joinNl (strLines s) = s := by
  unfold joinNl strLines
  rw [List.map_map]
  have h : (String.data ∘ String.mk) = id := rfl
  rw [h, List.map_id, List.intercalate_splitOn]

/-- The empty line is kept verbatim as a context line. -/
lemma keepLine_empty : keepLine "" = some "" := rfl

/-- A hunk body starting with an empty line contributes that empty line. -/
lemma hunkLines_cons_empty (t : List String) : hunkLines ("" :: t) = "" :: hunkLines t := by
  simp [hunkLines, List.filterMap_cons, keepLine_empty]

/-- Every hunk body produced by the block split starts with an empty line:
the newline after the removed `@@` marker line stays with the body. -/
lemma mem_hunkBodiesOf {g h : List String} (hm : h ∈ hunkBodiesOf g) :
    ∃ t, h = "" :: t := by
  unfold hunkBodiesOf jsSplitOnLines at hm
  rcases he : markSeps (splitAtTrue isHunkHeader g) with _ | ⟨x, xs⟩ <;>
    rw [he] at hm <;> simp [leadNl] at hm
  obtain ⟨t, _, rfl⟩ := hm
  exact ⟨t, rfl⟩

/-- A nonempty list of hunk bodies reconstructs a nonempty line list. -/
lemma flatMap_hunkLines_ne_nil {g : List String} (hne : hunkBodiesOf g ≠ []) :
    ∃ t, (hunkBodiesOf g).flatMap hunkLines = "" :: t := by
  rcases hb : hunkBodiesOf g with _ | ⟨b, bs⟩
  · exact absurd hb hne
  · obtain ⟨t, rfl⟩ := mem_hunkBodiesOf (g := g) (hb ▸ List.mem_cons_self _ _)
    refine ⟨hunkLines t ++ bs.flatMap hunkLines, ?_⟩
    simp [List.flatMap_cons, hunkLines_cons_empty]

/-- No line of `ls` has prefix `pre`, so no header is found. -/
lemma findHdrPath_eq_none {pre : String} :
    ∀ {ls : List String}, (∀ l ∈ ls, strStartsWith l pre = false) →
      findHdrPath pre ls = none
  | [], _ => rfl
  | l :: rest, h => by
    have hl := h l (List.mem_cons_self _ _)
    rw [findHdrPath, if_neg (by simp [hl])]
    exact findHdrPath_eq_none fun x hx => h x (List.mem_cons_of_mem _ hx)

/-- Lines of the groups of `splitAtTrue` come from the split list. -/
lemma mem_splitAtTrue {p : String → Bool} {ls : List String} :
    ∀ {g : List String}, g ∈ splitAtTrue p ls → ∀ {l : String}, l ∈ g → l ∈ ls := by
  induction ls with
  | nil =>
    intro g hg l hl
    simp [splitAtTrue] at hg; subst hg; cases hl
  | cons x rest ih =>
    intro g hg l hl
    simp only [splitAtTrue] at hg
    split at hg
    · simp at hg; subst hg; cases hl
    · rename_i g0 gs he
      by_cases hp : p x
      · rw [if_pos hp] at hg
        rcases List.mem_cons.mp hg with rfl | hg'
        · cases hl
        · exact List.mem_cons_of_mem _ (ih (he ▸ hg') hl)
      · rw [if_neg hp] at hg
        rcases List.mem_cons.mp hg with rfl | hg'
        · rcases List.mem_cons.mp hl with rfl | hl'
          · exact List.mem_cons_self _ _
          · exact List.mem_cons_of_mem _
              (ih (he ▸ List.mem_cons_self g0 gs) hl')
        · exact List.mem_cons_of_mem _
            (ih (he ▸ List.mem_cons_of_mem g0 hg') hl)

/-- Lines of the groups of `markSeps` come from the input groups or are empty. -/
lemma mem_markSeps {X : List (List String)} :
    ∀ {g : List String}, g ∈ markSeps X →
      ∀ {l : String}, l ∈ g → (∃ g' ∈ X, l ∈ g') ∨ l = "" := by
  induction X with
  | nil => intro g hg; cases hg
  | cons g0 gs ih =>
    cases gs with
    | nil =>
      intro g hg l hl
      simp [markSeps] at hg; subst hg
      exact Or.inl ⟨_, List.mem_cons_self _ _, hl⟩
    | cons g1 gs' =>
      intro g hg l hl
      simp only [markSeps] at hg
      rcases List.mem_cons.mp hg with rfl | hg'
      · rcases List.mem_append.mp hl with hl0 | hl1
        · exact Or.inl ⟨g0, List.mem_cons_self _ _, hl0⟩
        · simp at hl1; exact Or.inr hl1
      · rcases ih hg' hl with ⟨g', hg'', hl'⟩ | he
        · exact Or.inl ⟨g', List.mem_cons_of_mem _ hg'', hl'⟩
        · exact Or.inr he

/-- Lines of the groups of `leadNl` come from the input groups or are empty. -/
lemma mem_leadNl {X : List (List String)} {g : List String} (hg : g ∈ leadNl X)
    {l : String} (hl : l ∈ g) : (∃ g' ∈ X, l ∈ g') ∨ l = "" := by
  cases X with
  | nil => cases hg
  | cons g0 gs =>
    simp only [leadNl] at hg
    rcases List.mem_cons.mp hg with rfl | hg'
    · exact Or.inl ⟨_, List.mem_cons_self _ _, hl⟩
    · obtain ⟨h, hh, rfl⟩ := List.mem_map.mp hg'
      rcases List.mem_cons.mp hl with rfl | hl'
      · exact Or.inr rfl
      · exact Or.inl ⟨h, List.mem_cons_of_mem _ hh, hl'⟩

/-- Lines of the blocks of a diff are lines of the diff text or empty. -/
lemma mem_diffBlocks {diff : String} {g : List String} (hg : g ∈ diffBlocks diff)
    {l : String} (hl : l ∈ g) : l ∈ strLines diff ∨ l = "" := by
  unfold diffBlocks jsSplitOnLines at hg
  have hg' := List.mem_of_mem_filter hg
  rcases mem_leadNl hg' hl with ⟨g', hgm, hl'⟩ | he
  · rcases mem_markSeps hgm hl' with ⟨g'', hgs, hl''⟩ | he'
    · exact Or.inl (mem_splitAtTrue hgs hl'')
    · exact Or.inr he'
  · exact Or.inr he

/-- A block with no addition header is skipped. -/
lemma applyBlock_skip {fs : FS} {g : List String} (h : newPathOf g = none) :
    applyBlock fs g = (fs, none) := by
  simp [applyBlock, h]

/-- Applying blocks that are all skipped leaves the file system unchanged. -/
lemma applyBlocksList_skip {fs : FS} :
    ∀ {gs : List (List String)}, (∀ g ∈ gs, newPathOf g = none) →
      applyBlocksList fs gs = (fs, none)
  | [], _ => rfl
  | g :: gs, h => by
    rw [applyBlocksList, applyBlock_skip (h g (List.mem_cons_self _ _))]
    exact applyBlocksList_skip fun g' hg' => h g' (List.mem_cons_of_mem _ hg')

/-- Sequencing of the block loop over an appended list. -/
lemma applyBlocksList_append (fs : FS) :
    ∀ (gs1 gs2 : List (List String)),
      applyBlocksList fs (gs1 ++ gs2) =
        match applyBlocksList fs gs1 with
        | (fs1, none) => applyBlocksList fs1 gs2
        | (fs1, some e) => (fs1, some e)
  | [], gs2 => rfl
  | g :: gs1, gs2 => by
    rw [List.cons_append, applyBlocksList, applyBlocksList]
    rcases applyBlock fs g with ⟨fs1, _ | e⟩
    · exact applyBlocksList_append fs1 gs1 gs2
    · rfl

/-- The new-file branch of `applyBlock`. -/
lemma applyBlock_newfile {fs : FS} {g : List String} {p : String}
    (h1 : newPathOf g = some p)
    (h2 : (hasNewFileMode g || !existsSync fs p) = true) :
    applyBlock fs g = (writeFileSafe fs p (newFileContent g), none) := by
  simp [applyBlock, h1, h2]

/-- The edit branch of `applyBlock` with no hunk: the baseline is split into
lines and rejoined. -/
lemma applyBlock_edit_noHunks {fs : FS} {g : List String} {p c : String}
    (h1 : newPathOf g = some p)
    (h2 : (hasNewFileMode g || !existsSync fs p) = false)
    (h3 : fs ((oldPathOf g).getD p) = some c)
    (h4 : hunkBodiesOf g = []) :
    applyBlock fs g = (writeFileSafe fs p (joinNl (strLines c)), none) := by
  simp [applyBlock, h1, h2, h3, h4]

/-- The edit branch of `applyBlock` with at least one hunk: the baseline is
discarded and the kept lines of all hunks are written. -/
lemma applyBlock_edit_hunks {fs : FS} {g : List String} {p c : String}
    (h1 : newPathOf g = some p)
    (h2 : (hasNewFileMode g || !existsSync fs p) = false)
    (h3 : fs ((oldPathOf g).getD p) = some c)
    (h4 : hunkBodiesOf g ≠ []) :
    applyBlock fs g =
      (writeFileSafe fs p (joinNl ((hunkBodiesOf g).flatMap hunkLines)), none) := by
  obtain ⟨t, ht⟩ := flatMap_hunkLines_ne_nil h4
  simp [applyBlock, h1, h2, h3, h4, ht]

/-- The edit branch of `applyBlock` when the baseline read fails: the error
is raised and nothing is written. -/
lemma applyBlock_edit_missing {fs : FS} {g : List String} {p : String}
    (h1 : newPathOf g = some p)
    (h2 : (hasNewFileMode g || !existsSync fs p) = false)
    (h3 : fs ((oldPathOf g).getD p) = none) :
    applyBlock fs g = (fs, some (.missingBaseFile ((oldPathOf g).getD p))) := by
  simp [applyBlock, h1, h2, h3]

/-- Stripping the assembled text's leading newline removes exactly the
empty line that heads the assembled line list. -/
lemma stripLeadNl_joinNl_empty_cons (rest : List String) :
    stripLeadNl (joinNl ("" :: rest)) = joinNl rest := by
  cases rest with
  | nil => rfl
  | cons r rs =>
    show stripLeadNl (String.mk (List.intercalate ['\n'] ([] :: r.data :: (rs.map String.data)))) =
      String.mk (List.intercalate ['\n'] (r.data :: rs.map String.data))
    rw [List.intercalate, List.intercalate, List.intersperse_cons_cons,
      List.flatten_cons, List.flatten_cons, List.nil_append, List.singleton_append]
    rw [stripLeadNl, if_pos]
    · rfl
    · simp [strStartsWith, List.isPrefixOf]

/-- C1 (counterexample): for an existing file and a diff whose single hunk
holds one context line, one removed line and one added line in that order,
the resulting body is NOT the context line followed by the added line: the
hunk-marker split leaves a leading empty context line, so the body is an
empty line, then the context line, then the added line (the removed text is
indeed absent). -/
theorem c1_counterexample :
    (applyUnifiedDiff c1diff c1fs).1 "f.txt" = some "\n ctx\nadd" ∧
    ("\n ctx\nadd" : String) ≠ " ctx\nadd" ∧
    ("\n ctx\nadd" : String) ≠ "ctx\nadd" ∧
    strContains "\n ctx\nadd" "rem" = false := by
  decide

/-- C1 (amended): for every edit with at least one hunk, the baseline is
discarded and the body written to `newPath` is exactly the concatenation, in
hunk order then line order, of the kept line texts (added lines with their
marker stripped, context lines verbatim) of all hunk bodies, each hunk body
carrying the leading empty context line left by the hunk-marker split, with
every removed line dropped; on `c1diff` the body is an empty line, the
context line, then the added line, and the removed text does not occur. -/
theorem c1_edit_reconstruction :
    (∀ (fs : FS) (g : List String) (p c : String),
        newPathOf g = some p →
        (hasNewFileMode g || !existsSync fs p) = false →
        fs ((oldPathOf g).getD p) = some c →
        hunkBodiesOf g ≠ [] →
        applyBlock fs g =
          (writeFileSafe fs p (joinNl ((hunkBodiesOf g).flatMap hunkLines)), none)) ∧
    (applyUnifiedDiff c1diff c1fs).1 "f.txt" = some "\n ctx\nadd" ∧
    strContains "\n ctx\nadd" "rem" = false :=
  ⟨fun _ _ _ _ h1 h2 h3 h4 => applyBlock_edit_hunks h1 h2 h3 h4, by decide, by decide⟩

/-- C1 witness: the amended reconstruction applied to the concrete
context/removed/added block over a file system where `f.txt` exists. -/
theorem c1_edit_reconstruction_witness :
    newPathOf ctxRemAddBlock = some "f.txt" ∧
    (hasNewFileMode ctxRemAddBlock || !existsSync c1fs "f.txt") = false ∧
    c1fs ((oldPathOf ctxRemAddBlock).getD "f.txt") = some "old1\nold2" ∧
    hunkBodiesOf ctxRemAddBlock ≠ [] ∧
    applyBlock c1fs ctxRemAddBlock =
      (writeFileSafe c1fs "f.txt" (joinNl ((hunkBodiesOf ctxRemAddBlock).flatMap hunkLines)), none) :=
  ⟨by decide, by decide, by decide, by decide,
    c1_edit_reconstruction.1 c1fs ctxRemAddBlock "f.txt" "old1\nold2"
      (by decide) (by decide) (by decide) (by decide)⟩

/-- C2: for every new-file creation (block with the "new file mode" marker,
or whose `newPath` does not exist), the written content is the concatenation
of kept (added and context) line texts in hunk order then line order with a
single leading blank line stripped; on the "new file mode" section for
`pkg/x.txt` whose hunk body is solely `+line1` / `+line2`, the written file
is exactly the two lines `line1` and `line2` with no leading blank line. -/
theorem c2_new_file_reconstruction :
    (∀ (fs : FS) (g : List String) (p : String),
        newPathOf g = some p →
        (hasNewFileMode g || !existsSync fs p) = true →
        applyBlock fs g = (writeFileSafe fs p (newFileContent g), none)) ∧
    newFileContent c2block = "line1\nline2" ∧
    (applyUnifiedDiff c2diff (fsOf [])).1 "pkg/x.txt" = some "line1\nline2" :=
  ⟨fun _ _ _ h1 h2 => applyBlock_newfile h1 h2, by decide, by decide⟩

/-- C2 witness: the new-file branch applied to the concrete `pkg/x.txt`
section over an empty file system. -/
theorem c2_new_file_reconstruction_witness :
    newPathOf c2block = some "pkg/x.txt" ∧
    (hasNewFileMode c2block || !existsSync (fsOf []) "pkg/x.txt") = true ∧
    applyBlock (fsOf []) c2block =
      (writeFileSafe (fsOf []) "pkg/x.txt" (newFileContent c2block), none) :=
  ⟨by decide, by decide,
    c2_new_file_reconstruction.1 (fsOf []) c2block "pkg/x.txt" (by decide) (by decide)⟩

/-- C3 (counterexample): in `c3diff` the failing edit precedes an
independent new-file section; the missing-baseline error aborts the whole
loop, so the sibling that comes after is NOT attempted and its file is never
written, although the very same section succeeds when applied on its own. -/
theorem c3_counterexample :
    (applyUnifiedDiff c3diff c3fs).2 = some (ApplyError.missingBaseFile "missing.txt") ∧
    (applyUnifiedDiff c3diff c3fs).1 "pkg/b.txt" = none ∧
    (applyUnifiedDiff c3solo c3fs).1 "pkg/b.txt" = some "yo" := by
  decide

/-- C3 (amended): a missing-baseline failure aborts that FileChange and the
remainder of the diff: siblings applied before it keep their writes and the
error is reported, while siblings after it are not attempted; in
`c3diffRev` the new-file sibling that precedes the failing edit is written. -/
theorem c3_failure_aborts_remainder :
    (∀ (fs fs1 : FS) (gs1 : List (List String)) (g : List String)
        (gs2 : List (List String)) (e : ApplyError),
        applyBlocksList fs gs1 = (fs1, none) →
        applyBlock fs1 g = (fs1, some e) →
        applyBlocksList fs (gs1 ++ g :: gs2) = (fs1, some e)) ∧
    (applyUnifiedDiff c3diffRev c3fs).1 "pkg/b.txt" = some "yo\n" ∧
    (applyUnifiedDiff c3diffRev c3fs).2 = some (ApplyError.missingBaseFile "missing.txt") :=
  ⟨fun fs fs1 gs1 g gs2 e h1 h2 => by
    simp only [applyBlocksList_append, h1, applyBlocksList, h2],
   by decide, by decide⟩

/-- C3 witness: the abort property applied with no earlier sibling, the
concrete failing block, and one pending later sibling. -/
theorem c3_failure_aborts_remainder_witness :
    applyBlocksList c3fs [] = (c3fs, none) ∧
    applyBlock c3fs c9block = (c3fs, some (ApplyError.missingBaseFile "missing.txt")) ∧
    applyBlocksList c3fs ([] ++ c9block :: [c2block]) =
      (c3fs, some (ApplyError.missingBaseFile "missing.txt")) :=
  ⟨rfl, rfl,
    c3_failure_aborts_remainder.1 c3fs c3fs [] c9block [c2block]
      (ApplyError.missingBaseFile "missing.txt") rfl rfl⟩

/-- C4: if some touched path is, after normalization, outside every
normalized allowlist prefix, the whole diff is rejected before any
application and the file system is unchanged; the diff touching `src/a.ts`
and `secrets/b.ts` under allowlist `src/` is rejected and `src/a.ts` keeps
its prior content. -/
theorem c4_guardrail_rejects_whole_diff :
    (∀ (wl : List String) (diff : String) (fs : FS),
        badPath wl (addedPaths diff) = true →
        applyWithGuardrail wl diff fs = (fs, none)) ∧
    badPath (mkWhitelist ["src/"]) (addedPaths c4diff) = true ∧
    (applyWithGuardrail (mkWhitelist ["src/"]) c4diff c4fs).1 "src/a.ts" = some "orig" ∧
    c4fs "src/a.ts" = some "orig" :=
  ⟨fun wl diff fs h => by
    unfold applyWithGuardrail
    cases hd : hasDiffGitMarker diff <;> simp [hd, h],
   by decide, by decide, by decide⟩

/-- C4 witness: the rejection applied to the concrete two-file diff under
allowlist `src/`. -/
theorem c4_guardrail_rejects_whole_diff_witness :
    badPath (mkWhitelist ["src/"]) (addedPaths c4diff) = true ∧
    applyWithGuardrail (mkWhitelist ["src/"]) c4diff c4fs = (c4fs, none) :=
  ⟨by decide,
    c4_guardrail_rejects_whole_diff.1 (mkWhitelist ["src/"]) c4diff c4fs (by decide)⟩

/-- C5: normalization strips exactly a leading `./` or `.\` prefix from
candidates and allowlist prefixes before the prefix test; `./docs/` matches
`docs/readme.md`, while `../docs/readme.md` is not allowed under `docs/` or
`./docs/` because `../` is not stripped. -/
theorem c5_path_normalization :
    (∀ s : String, strStartsWith s "./" = true → norm s = strDrop s 2) ∧
    (∀ s : String, strStartsWith s ".\\" = true → norm s = strDrop s 2) ∧
    (∀ s : String, strStartsWith s "./" = false → strStartsWith s ".\\" = false → norm s = s) ∧
    strStartsWith (norm "docs/readme.md") (norm "./docs/") = true ∧
    badPath ["./docs/"] ["docs/readme.md"] = false ∧
    badPath ["docs/"] ["../docs/readme.md"] = true ∧
    badPath ["./docs/"] ["../docs/readme.md"] = true :=
  ⟨fun s h => by simp [norm, h],
   fun s h => by simp [norm, h],
   fun s h1 h2 => by simp [norm, h1, h2],
   by decide, by decide, by decide, by decide⟩

/-- C5 witness: the three normalization clauses applied to concrete paths. -/
theorem c5_path_normalization_witness :
    (strStartsWith "./docs/" "./" = true ∧ norm "./docs/" = strDrop "./docs/" 2) ∧
    (strStartsWith ".\\a" ".\\" = true ∧ norm ".\\a" = strDrop ".\\a" 2) ∧
    (strStartsWith "../docs/readme.md" "./" = false ∧
      strStartsWith "../docs/readme.md" ".\\" = false ∧
      norm "../docs/readme.md" = "../docs/readme.md") :=
  ⟨⟨by decide, c5_path_normalization.1 "./docs/" (by decide)⟩,
   ⟨by decide, c5_path_normalization.2.1 ".\\a" (by decide)⟩,
   ⟨by decide, by decide,
    c5_path_normalization.2.2.1 "../docs/readme.md" (by decide) (by decide)⟩⟩

/-- C6 (counterexample): a text with no `diff --git` line can still mutate
the file system through `applyUnifiedDiff`: the whole text becomes one block
and its `+++ b/` header is honored, so `pkg/a.txt` is created. -/
theorem c6_counterexample :
    ((strLines c6diff).all (fun l => !isDiffGitLine l)) = true ∧
    (fsOf []) "pkg/a.txt" = none ∧
    (applyUnifiedDiff c6diff (fsOf [])).1 "pkg/a.txt" = some "hi" := by
  decide

/-- C6 (amended): a text with no `diff --git` line and also no interior
`+++ b/` addition header (in particular the empty string) yields zero file
changes and no error from `applyUnifiedDiff`; and under the orchestration
guard, any text with no `diff --git` line is never applied at all. -/
theorem c6_no_marker_no_header_no_op :
    (∀ (diff : String) (fs : FS),
        ((strLines diff).all (fun l => !isDiffGitLine l)) = true →
        ((strLines diff).all (fun l => !strStartsWith l "+++ b/")) = true →
        applyUnifiedDiff diff fs = (fs, none)) ∧
    (∀ (wl : List String) (diff : String) (fs : FS),
        ((strLines diff).all (fun l => !isDiffGitLine l)) = true →
        applyWithGuardrail wl diff fs = (fs, none)) :=
  ⟨fun diff fs _ h2 => by
    apply applyBlocksList_skip
    intro g hg
    apply findHdrPath_eq_none
    intro l hl
    rcases mem_diffBlocks hg (List.drop_subset 1 g hl) with hm | rfl
    · have := List.all_eq_true.mp h2 l hm
      simpa using this
    · decide,
   fun wl diff fs h1 => by
    have hm : hasDiffGitMarker diff = false := by
      apply List.any_eq_false.mpr
      intro l hl
      have := List.all_eq_true.mp h1 l hl
      simpa using this
    unfold applyWithGuardrail
    simp [hm]⟩

/-- C6 witness: the amended no-op applied to a concrete marker-free text and
to the empty string, and the guard applied to the counterexample text. -/
theorem c6_no_marker_no_header_no_op_witness :
    applyUnifiedDiff "hello world" (fsOf []) = (fsOf [], none) ∧
    applyUnifiedDiff "" (fsOf []) = (fsOf [], none) ∧
    applyWithGuardrail ["src/"] c6diff (fsOf []) = (fsOf [], none) :=
  ⟨c6_no_marker_no_header_no_op.1 "hello world" (fsOf []) (by decide) (by decide),
   c6_no_marker_no_header_no_op.1 "" (fsOf []) (by decide) (by decide),
   c6_no_marker_no_header_no_op.2 ["src/"] c6diff (fsOf []) (by decide)⟩

/-- C7 (counterexample): a zero-hunk edit does NOT always leave the edited
file's content unchanged: when the removal header names a different existing
file (`--- a/x.txt` with `+++ b/y.txt`), that file is read as the baseline
and its content is written to `y.txt`, changing `y.txt` from `bar` to `foo`
with no error. -/
theorem c7_counterexample :
    hunkBodiesOf c7crossBlock = [] ∧
    c7crossFs "y.txt" = some "bar" ∧
    (applyUnifiedDiff c7crossDiff c7crossFs).1 "y.txt" = some "foo" ∧
    ("foo" : String) ≠ "bar" ∧
    (applyUnifiedDiff c7crossDiff c7crossFs).2 = none := by
  decide

/-- C7 (amended): for every FileChange with zero hunks, an edit writes the
baseline — read from the `--- a/` path, defaulting to `newPath` — to
`newPath` unmodified (splitting on newlines and rejoining is the identity on
the content), so `newPath`'s content afterwards equals the baseline's; when
the baseline path is `newPath` itself the file is unchanged, but a removal
header naming a different existing file copies that file's content over
`newPath`.  A new-file creation writes an empty file.  Concretely, the
same-path zero-hunk edit leaves `e.txt` as `keep\nme`, the zero-hunk new
file writes `""` to `n.txt`, and the cross-path zero-hunk edit sets `y.txt`
to `x.txt`'s content `foo`. -/
theorem c7_zero_hunks_baseline_copy :
    (∀ (fs : FS) (g : List String) (p c : String),
        newPathOf g = some p →
        (hasNewFileMode g || !existsSync fs p) = false →
        fs ((oldPathOf g).getD p) = some c →
        hunkBodiesOf g = [] →
        applyBlock fs g = (writeFileSafe fs p c, none)) ∧
    (∀ (fs : FS) (g : List String) (p : String),
        newPathOf g = some p →
        (hasNewFileMode g || !existsSync fs p) = true →
        hunkBodiesOf g = [] →
        applyBlock fs g = (writeFileSafe fs p "", none)) ∧
    (applyUnifiedDiff c7editDiff c7fs).1 "e.txt" = some "keep\nme" ∧
    (applyUnifiedDiff c7newDiff c7fs).1 "n.txt" = some "" ∧
    (applyUnifiedDiff c7crossDiff c7crossFs).1 "y.txt" = some "foo" :=
  ⟨fun fs g p c h1 h2 h3 h4 => by
    rw [applyBlock_edit_noHunks h1 h2 h3 h4, joinNl_strLines],
   fun fs g p h1 h2 h5 => by
    have hc : newFileContent g = "" := by
      unfold newFileContent
      rw [h5]
      rfl
    rw [applyBlock_newfile h1 h2, hc],
   by decide, by decide, by decide⟩

/-- C7 witness: the zero-hunk baseline copy applied to the concrete
same-path block, the cross-path block, and the new-file block. -/
theorem c7_zero_hunks_baseline_copy_witness :
    newPathOf c7editBlock = some "e.txt" ∧
    hunkBodiesOf c7editBlock = [] ∧
    applyBlock c7fs c7editBlock = (writeFileSafe c7fs "e.txt" "keep\nme", none) ∧
    c7crossFs ((oldPathOf c7crossBlock).getD "y.txt") = some "foo" ∧
    applyBlock c7crossFs c7crossBlock = (writeFileSafe c7crossFs "y.txt" "foo", none) ∧
    applyBlock c7fs c7newBlock = (writeFileSafe c7fs "n.txt" "", none) :=
  ⟨by decide, by decide,
    c7_zero_hunks_baseline_copy.1 c7fs c7editBlock "e.txt" "keep\nme"
      (by decide) (by decide) (by decide) (by decide),
   by decide,
    c7_zero_hunks_baseline_copy.1 c7crossFs c7crossBlock "y.txt" "foo"
      (by decide) (by decide) (by decide) (by decide),
    c7_zero_hunks_baseline_copy.2.1 c7fs c7newBlock "n.txt" (by decide) (by decide) (by decide)⟩

/-- C8: sections are applied in parsed order with no deduplication, so when
two sections target the same `newPath` the final content is the one produced
by the last section; concretely, the first `c8diff` section alone yields
`first\n` but the two-section diff ends with `second`. -/
theorem c8_last_applied_wins :
    (∀ (fs fs1 : FS) (g1 g2 : List String) (p : String),
        applyBlock fs g1 = (fs1, none) →
        newPathOf g2 = some p →
        hasNewFileMode g2 = true →
        applyBlocksList fs [g1, g2] =
          (writeFileSafe fs1 p (newFileContent g2), none)) ∧
    (applyUnifiedDiff c8firstOnly (fsOf [])).1 "p.txt" = some "first" ∧
    (applyUnifiedDiff c8diff (fsOf [])).1 "p.txt" = some "second" ∧
    newFileContent c8block1 = "first\n" ∧
    ("second" : String) ≠ "first\n" ∧ ("second" : String) ≠ "first" :=
  ⟨fun fs fs1 g1 g2 p h1 h2 h3 => by
    have hb : applyBlock fs1 g2 = (writeFileSafe fs1 p (newFileContent g2), none) :=
      applyBlock_newfile h2 (by rw [h3]; rfl)
    simp only [applyBlocksList, h1, hb],
   by decide, by decide, by decide, by decide, by decide⟩

/-- C8 witness: the two concrete `p.txt` sections applied in order over an
empty file system. -/
theorem c8_last_applied_wins_witness :
    applyBlock (fsOf []) c8block1 = (writeFileSafe (fsOf []) "p.txt" "first\n", none) ∧
    newPathOf c8block2 = some "p.txt" ∧
    hasNewFileMode c8block2 = true ∧
    applyBlocksList (fsOf []) [c8block1, c8block2] =
      (writeFileSafe (writeFileSafe (fsOf []) "p.txt" "first\n") "p.txt"
        (newFileContent c8block2), none) :=
  ⟨rfl, by decide, by decide,
    c8_last_applied_wins.1 (fsOf []) (writeFileSafe (fsOf []) "p.txt" "first\n")
      c8block1 c8block2 "p.txt" rfl (by decide) (by decide)⟩

/-- C9: a block whose `newPath` does not exist takes the new-file branch and
never reads a baseline; and a baseline-read failure is reachable only when
`newPath` exists, an `--- a/` header is present, its path differs from
`newPath`, and that path does not exist (in which case nothing is written). -/
theorem c9_new_file_branch_guards_baseline_read :
    (∀ (fs : FS) (g : List String) (p : String),
        newPathOf g = some p →
        existsSync fs p = false →
        applyBlock fs g = (writeFileSafe fs p (newFileContent g), none)) ∧
    (∀ (fs fs1 : FS) (g : List String) (e : ApplyError),
        applyBlock fs g = (fs1, some e) →
        ∃ p q, newPathOf g = some p ∧ existsSync fs p = true ∧
          oldPathOf g = some q ∧ q ≠ p ∧ fs q = none ∧
          e = ApplyError.missingBaseFile q ∧ fs1 = fs) :=
  ⟨fun fs g p h1 h2 => applyBlock_newfile h1 (by rw [h2]; simp),
   fun fs fs1 g e h => by
    cases hn : newPathOf g with
    | none =>
      rw [applyBlock_skip hn] at h
      simp at h
    | some p =>
      by_cases hc : (hasNewFileMode g || !existsSync fs p) = true
      · rw [applyBlock_newfile hn hc] at h
        simp at h
      · have hc' : (hasNewFileMode g || !existsSync fs p) = false := by
          simpa using hc
        have hex : existsSync fs p = true := by
          rcases Bool.or_eq_false_iff.mp hc' with ⟨_, hx⟩
          simpa using hx
        cases hr : fs ((oldPathOf g).getD p) with
        | some c =>
          rcases hb : hunkBodiesOf g with _ | ⟨b, bs⟩
          · rw [applyBlock_edit_noHunks hn hc' hr hb] at h
            simp at h
          · rw [applyBlock_edit_hunks hn hc' hr (by rw [hb]; simp)] at h
            simp at h
        | none =>
          rw [applyBlock_edit_missing hn hc' hr] at h
          rw [Prod.mk.injEq] at h
          obtain ⟨hfs, he⟩ := h
          cases ho : oldPathOf g with
          | none =>
            rw [ho, Option.getD_none] at hr
            simp [existsSync, hr] at hex
          | some q =>
            rw [ho, Option.getD_some] at hr
            rw [ho, Option.getD_some] at he
            refine ⟨p, q, rfl, hex, rfl, ?_, hr, ?_, hfs.symm⟩
            · intro hqp
              rw [hqp] at hr
              simp [existsSync, hr] at hex
            · exact (Option.some_inj.mp he).symm⟩

/-- C9 witness: the new-file branch on the concrete `pkg/x.txt` block, and
the necessary conditions extracted from the concrete failing block. -/
theorem c9_new_file_branch_guards_baseline_read_witness :
    existsSync (fsOf []) "pkg/x.txt" = false ∧
    applyBlock (fsOf []) c2block =
      (writeFileSafe (fsOf []) "pkg/x.txt" (newFileContent c2block), none) ∧
    (∃ p q, newPathOf c9block = some p ∧ existsSync c3fs p = true ∧
      oldPathOf c9block = some q ∧ q ≠ p ∧ c3fs q = none ∧
      ApplyError.missingBaseFile "missing.txt" = ApplyError.missingBaseFile q ∧
      c3fs = c3fs) :=
  ⟨by decide,
   c9_new_file_branch_guards_baseline_read.1 (fsOf []) c2block "pkg/x.txt"
     (by decide) (by decide),
   c9_new_file_branch_guards_baseline_read.2 c3fs c3fs c9block
     (ApplyError.missingBaseFile "missing.txt") rfl⟩

/-- C10: splitting a block on the hunk-marker line leaves the following
newline at the start of each hunk body, so every hunk body contributes a
leading empty context line; in the edit branch this artifact is never
stripped, so the reconstructed body starts with an empty line (and has one
at each hunk boundary), whereas the new-file branch strips exactly one such
leading blank line from the assembled text. -/
theorem c10_hunk_split_artifact :
    (∀ (g : List String), ∀ h ∈ hunkBodiesOf g, ∃ t, hunkLines h = "" :: t) ∧
    (∀ (fs : FS) (g : List String) (p c : String),
        newPathOf g = some p →
        (hasNewFileMode g || !existsSync fs p) = false →
        fs ((oldPathOf g).getD p) = some c →
        hunkBodiesOf g ≠ [] →
        ∃ t, applyBlock fs g = (writeFileSafe fs p (joinNl ("" :: t)), none)) ∧
    (∀ rest : List String, stripLeadNl (joinNl ("" :: rest)) = joinNl rest) :=
  ⟨fun _ h hm => by
    obtain ⟨t, rfl⟩ := mem_hunkBodiesOf hm
    exact ⟨hunkLines t, hunkLines_cons_empty t⟩,
   fun fs g p c h1 h2 h3 h4 => by
    obtain ⟨t, ht⟩ := flatMap_hunkLines_ne_nil h4
    exact ⟨t, by rw [applyBlock_edit_hunks h1 h2 h3 h4, ht]⟩,
   stripLeadNl_joinNl_empty_cons⟩

/-- C10 witness: the artifact on the concrete context/removed/added block
and the strip behavior on a concrete line list. -/
theorem c10_hunk_split_artifact_witness :
    (["", " ctx", "-rem", "+add"] ∈ hunkBodiesOf ctxRemAddBlock) ∧
    (∃ t, hunkLines ["", " ctx", "-rem", "+add"] = "" :: t) ∧
    (∃ t, applyBlock c1fs ctxRemAddBlock =
      (writeFileSafe c1fs "f.txt" (joinNl ("" :: t)), none)) ∧
    stripLeadNl (joinNl ("" :: ["a"])) = joinNl ["a"] :=
  ⟨by decide,
   c10_hunk_split_artifact.1 ctxRemAddBlock ["", " ctx", "-rem", "+add"] (by decide),
   c10_hunk_split_artifact.2.1 c1fs ctxRemAddBlock "f.txt" "old1\nold2"
     (by decide) (by decide) (by decide) (by decide),
   c10_hunk_split_artifact.2.2 ["a"]⟩

end AgentRun
